import Mathlib

/-!
Verification of the gamenet graph-reconstruction scripts.

This file gives a shallow embedding of the three Python scripts
`poly_graph.py`, `river_graph.py` and `town_graph.py` and proves or
refutes the frozen claims about them.

Conventions of the embedding:
* JSON values are modelled by the inductive `Jv`; objects are association
  lists in document order (Python `json.load` produces insertion-ordered
  dicts with unique keys).
* A `networkx.Graph` is modelled by `NXGraph`: nodes are kept as an
  association list from node id to an optional position attribute,
  newest entry first, so that lookup-of-first-match coincides with
  networkx's "last write wins" attribute update; edges are kept as an
  association list from the normalised (unordered) endpoint pair to the
  edge attributes, again newest first.  `add_edge` inserts missing
  endpoints as attribute-less nodes, exactly as networkx does.
* Python exceptions (`KeyError`, `IndexError`, `TypeError`) are modelled
  by `Except String`.
-/

/-- A parsed JSON value.  Numbers are modelled by integers: the scripts
never do arithmetic on numbers, they only compare them (`h < 0`,
truthiness), which the integer model captures exactly. -/
inductive Jv where
  | null : Jv
  | bool (b : Bool) : Jv
  | num (n : Int) : Jv
  | str (s : String) : Jv
  | arr (elems : List Jv) : Jv
  | obj (fields : List (String × Jv)) : Jv

/-- Key membership test for a JSON object's field list (Python `k in d`). -/
def containsKey (fields : List (String × Jv)) (k : String) : Bool :=
  fields.any (fun e => e.1 == k)

/-- First value bound to key `k` (Python `d[k]` on a dict with unique keys). -/
def lookupKey (fields : List (String × Jv)) (k : String) : Option Jv :=
  fields.lookup k

/-- The entities produced by nested-shape discovery in `poly_graph.py`:
`Poly(v)` keeps the raw exterior list, `Point(obj)` keeps the values of
the mapping's `x` and `y` members. -/
inductive Entity where
  | poly (exterior : List Jv) : Entity
  | point (x y : Jv) : Entity

/-- `Point(obj)` of `poly_graph.py`: the constructor reads `data['x']`
and `data['y']`.  It is only ever invoked with `'x' in obj` checked and
`'y'` matched as a key of `obj`, so the lookups cannot fail; the
defaults are unreachable. -/
def pointOf (whole : List (String × Jv)) : Entity :=
  .point ((lookupKey whole "x").getD .null) ((lookupKey whole "y").getD .null)

/-- `isinstance(v, list)`. -/
def isArr : Jv → Bool
  | .arr _ => true
  | _ => false

/-- The element list of a JSON sequence (only used under an `isArr` guard). -/
def asArr : Jv → List Jv
  | .arr elems => elems
  | _ => []

mutual

/-- The recursive walk `recurse` of `discover_poly` in `poly_graph.py`:
mappings are scanned key by key, sequences element by element. -/
def recurse : Jv → List Entity
  | .obj fields => recObjLoop fields fields
  | .arr elems => recList elems
  | _ => []
termination_by j => sizeOf j

/-- The `for k, v in obj.items()` loop body of `recurse`: a key
`exterior` with a sequence value yields a `Poly` and the loop moves on
to the next key; a key `y` with an `x` sibling yields a `Point` and
breaks out of the loop; any other member is recursed into. -/
def recObjLoop (whole : List (String × Jv)) : List (String × Jv) → List Entity
  | [] => []
  | (k, v) :: rest =>
    if k = "exterior" ∧ isArr v = true then
      .poly (asArr v) :: recObjLoop whole rest
    else if k = "y" ∧ containsKey whole "x" = true then
      [pointOf whole]
    else
      recurse v ++ recObjLoop whole rest
termination_by l => sizeOf l
decreasing_by all_goals (simp_wf; try omega)

/-- The `for item in obj` loop of `recurse` over a JSON sequence. -/
def recList : List Jv → List Entity
  | [] => []
  | x :: xs => recurse x ++ recList xs
termination_by l => sizeOf l

end

/-! ## Basic facts about key lookup -/

lemma containsKey_iff_lookup (fields : List (String × Jv)) (k : String) :
    containsKey fields k = true ↔ ∃ v, lookupKey fields k = some v := by
  induction fields with
  | nil => simp [containsKey, lookupKey]
  | cons e rest ih =>
    obtain ⟨k', v'⟩ := e
    by_cases hk : k' = k
    · subst hk
      simp [containsKey, lookupKey, List.lookup]
    · simp only [containsKey, List.any_cons, lookupKey, List.lookup] at *
      have hbeq : (k' == k) = false := by simp [hk]
      have hbeq' : (k == k') = false := by
        simp only [beq_eq_false_iff_ne, ne_eq]
        exact fun h => hk h.symm
      simp [hbeq, hbeq', ih]

/-! ## Claim C5: a matched polygon mapping is not terminal -/

/-- Keys other than `exterior` and `y` always take the recurse-into-value
branch of the key loop, so the loop distributes over such a prefix. -/
lemma recObjLoop_append (whole pre l2 : List (String × Jv))
    (hy : "y" ∉ pre.map Prod.fst) (hext : "exterior" ∉ pre.map Prod.fst) :
    recObjLoop whole (pre ++ l2) =
      pre.flatMap (fun kv => recurse kv.2) ++ recObjLoop whole l2 := by
  induction pre with
  | nil => simp
  | cons kv rest ih =>
    obtain ⟨k, v⟩ := kv
    simp only [List.map_cons, List.mem_cons] at hy hext
    push_neg at hy hext
    rw [List.cons_append, recObjLoop]
    have h1 : ¬(k = "exterior" ∧ isArr v = true) := fun h => hext.1 h.1.symm
    have h2 : ¬(k = "y" ∧ containsKey whole "x" = true) := fun h => hy.1 h.1.symm
    simp only [h1, if_false, h2]
    rw [ih hy.2 hext.2]
    simp [List.append_assoc]

/-- Claim C5 (amended).  When a mapping's member `exterior` holds a sequence,
exactly one `Poly` is emitted for that member and the walk does not
descend into the sequence itself — but, contrary to the claim, the key
loop then *continues* over the mapping's remaining members (and had
already recursed into the preceding ones), so further entities can be
discovered from inside the same mapping.  Stated for a mapping
`pre ++ [("exterior", xs)] ++ rest` whose prefix contains neither an
`exterior` nor a `y` member. -/
theorem claim_C5 (pre rest : List (String × Jv)) (xs : List Jv)
    (hy : "y" ∉ pre.map Prod.fst) (hext : "exterior" ∉ pre.map Prod.fst) :
    recurse (.obj (pre ++ ("exterior", .arr xs) :: rest)) =
      pre.flatMap (fun kv => recurse kv.2) ++
        (.poly xs :: recObjLoop (pre ++ ("exterior", .arr xs) :: rest) rest) := by
  rw [recurse, recObjLoop_append _ _ _ hy hext, recObjLoop]
  simp [isArr, asArr]

/-- Witness for C5: with prefix `[("a", 1)]` and a trailing point-like
sibling, the polygon is emitted and the sibling still yields a `Point`. -/
theorem claim_C5_witness :
    recurse (.obj [("a", .num 1), ("exterior", .arr []),
        ("b", .obj [("x", .num 0), ("y", .num 0)])]) =
      [Entity.poly [], Entity.point (.num 0) (.num 0)] := by
  have h := claim_C5 [("a", .num 1)] [("b", .obj [("x", .num 0), ("y", .num 0)])] []
    (by simp) (by simp)
  rw [List.singleton_append] at h
  rw [h]
  simp [recurse, recObjLoop, recList, containsKey, pointOf, lookupKey, List.lookup,
    isArr, asArr]

/-- Claim C5 (counterexample to the claim as stated).  A mapping whose
`exterior` member matches still has its other members visited: here a
sibling member yields a further `Point` entity from inside the same
mapping, so the walk did recurse past the polygon match. -/
theorem claim_C5_counterexample :
    recurse (.obj [("exterior", .arr []), ("a", .obj [("x", .num 0), ("y", .num 1)])]) =
        [Entity.poly [], Entity.point (.num 0) (.num 1)] ∧
      1 < (recurse (.obj [("exterior", .arr []),
        ("a", .obj [("x", .num 0), ("y", .num 1)])])).length := by
  constructor <;>
    simp [recurse, recObjLoop, recList, containsKey, pointOf, lookupKey, List.lookup,
      isArr, asArr]

/-! ## Claim C6: no polygon-before-point priority -/

/-- Claim C6 (amended).  The shape checks are applied per key in document
order, with no polygon-marker priority: for a mapping holding both an
`exterior` sequence member and numeric `x`/`y` members, reaching the `y`
key always emits a `Point`; a `Polygon` is emitted as well only when the
`exterior` key precedes `y`, and when `y` comes first the loop breaks
before `exterior` is ever seen, so no `Polygon` is emitted at all. -/
theorem claim_C6 (xs : List Jv) (a b : Int) :
    recurse (.obj [("exterior", .arr xs), ("x", .num a), ("y", .num b)]) =
        [Entity.poly xs, Entity.point (.num a) (.num b)] ∧
      recurse (.obj [("y", .num b), ("x", .num a), ("exterior", .arr xs)]) =
        [Entity.point (.num a) (.num b)] := by
  constructor <;>
    simp [recurse, recObjLoop, recList, containsKey, pointOf, lookupKey, List.lookup,
      isArr, asArr]

/-- Claim C6 (counterexample to the claim as stated).  A mapping containing
both markers, with `y` listed before `exterior`: discovery emits a
`Point` for it and no `Polygon`, contradicting the claimed
polygon-before-point priority "regardless of the order of the mapping's
keys". -/
theorem claim_C6_counterexample :
    recurse (.obj [("y", .num 0), ("x", .num 0), ("exterior", .arr [.num 7])]) =
        [Entity.point (.num 0) (.num 0)] ∧
      ∀ ys, Entity.poly ys ∉
        recurse (.obj [("y", .num 0), ("x", .num 0), ("exterior", .arr [.num 7])]) := by
  have h : recurse (.obj [("y", .num 0), ("x", .num 0), ("exterior", .arr [.num 7])]) =
      [Entity.point (.num 0) (.num 0)] := by
    simp [recurse, recObjLoop, recList, containsKey, pointOf, lookupKey, List.lookup,
      isArr, asArr]
  refine ⟨h, fun ys hmem => ?_⟩
  rw [h] at hmem
  simp at hmem

/-! ## The river `Node` constructor over raw JSON records (claim C8) -/

/-- The sentinel "no index" value of `river_graph.py`: `USIZE_MAX = 2**64 - 1`. -/
def USIZE_MAX : Nat := 2 ^ 64 - 1

/-- Python truthiness of a JSON value (used by
`kwargs['outlet'] if kwargs['outlet'] else None`). -/
def truthy : Jv → Bool
  | .null => false
  | .bool b => b
  | .num n => n != 0
  | .str s => s != ""
  | .arr elems => !elems.isEmpty
  | .obj fields => !fields.isEmpty

/-- The filter predicate `fn` of `Node.__init__`: `i != USIZE_MAX`.  Only a
JSON number can equal the sentinel. -/
def isSentinel : Jv → Bool
  | .num n => n == ((USIZE_MAX : Nat) : Int)
  | _ => false

/-- `kwargs[k]`: a missing key raises `KeyError` naming the key. -/
def getK (d : List (String × Jv)) (k : String) : Except String Jv :=
  match lookupKey d k with
  | some v => .ok v
  | none => .error ("KeyError: " ++ k)

/-- `list(...)` over a JSON value that must be a sequence. -/
def getList : Jv → Except String (List Jv)
  | .arr elems => .ok elems
  | _ => .error "TypeError: not iterable"

/-- `Vec2`, a named pair of coordinates. -/
structure Vec2 where
  x : Jv
  y : Jv

/-- `Vec2(**d)`: `d` must be a mapping binding exactly the keys `x` and
`y`; anything else raises `TypeError`. -/
def mkVec2 : Jv → Except String Vec2
  | .obj fields =>
    match lookupKey fields "x", lookupKey fields "y" with
    | some xv, some yv =>
      if fields.all (fun e => e.1 == "x" || e.1 == "y") then .ok ⟨xv, yv⟩
      else .error "TypeError: unexpected keyword argument"
    | _, _ => .error "TypeError: missing x or y"
  | _ => .error "TypeError: argument after ** must be a mapping"

/-- The fields assigned by `Node.__init__` of `river_graph.py`, with the
raw JSON types of the values. -/
structure NodeJ where
  i : Jv
  indices : Vec2
  uv : Vec2
  h : Jv
  neighbors : List Jv
  inlets : List Jv
  outlet : Option Jv
  direction : Vec2
  fork_angle : Jv
  strahler : Jv

/-- `Node.__init__(**kwargs)` of `river_graph.py`, with the field accesses
in source order: every field including `outlet` is read with
`kwargs[...]` and raises `KeyError` when missing; `neighbors` and
`inlets` are filtered of sentinel entries; a falsy `outlet` becomes
`None`. -/
def mkNodeJ (d : List (String × Jv)) : Except String NodeJ :=
  match getK d "i" with
  | .error e => .error e
  | .ok iV =>
  match getK d "indices" with
  | .error e => .error e
  | .ok indV =>
  match mkVec2 indV with
  | .error e => .error e
  | .ok indices =>
  match getK d "uv" with
  | .error e => .error e
  | .ok uvV =>
  match mkVec2 uvV with
  | .error e => .error e
  | .ok uv =>
  match getK d "h" with
  | .error e => .error e
  | .ok hV =>
  match getK d "neighbors" with
  | .error e => .error e
  | .ok nbrV =>
  match getList nbrV with
  | .error e => .error e
  | .ok nbrL =>
  match getK d "inlets" with
  | .error e => .error e
  | .ok inV =>
  match getList inV with
  | .error e => .error e
  | .ok inL =>
  match getK d "outlet" with
  | .error e => .error e
  | .ok outV =>
  match getK d "direction" with
  | .error e => .error e
  | .ok dirV =>
  match mkVec2 dirV with
  | .error e => .error e
  | .ok direction =>
  match getK d "fork_angle" with
  | .error e => .error e
  | .ok faV =>
  match getK d "strahler" with
  | .error e => .error e
  | .ok stV =>
    .ok ⟨iV, indices, uv, hV, nbrL.filter (fun x => !isSentinel x),
      inL.filter (fun x => !isSentinel x),
      if truthy outV then some outV else none, direction, faV, stV⟩

lemma contains_of_getK_ok {d : List (String × Jv)} {k : String} {v : Jv}
    (h : getK d k = .ok v) : containsKey d k = true := by
  rw [containsKey_iff_lookup]
  unfold getK at h
  cases hl : lookupKey d k with
  | none => rw [hl] at h; exact Except.noConfusion h
  | some w => exact ⟨w, hl ▸ rfl⟩

lemma getK_of_not_contains {d : List (String × Jv)} {k : String}
    (h : containsKey d k = false) : getK d k = .error ("KeyError: " ++ k) := by
  unfold getK
  cases hl : lookupKey d k with
  | none => rfl
  | some w =>
    have : containsKey d k = true := (containsKey_iff_lookup d k).mpr ⟨w, hl⟩
    rw [this] at h
    exact Bool.noConfusion h

/-- Claim C8 (amended).  Missing required fields are not reported through a
uniform `MalformedRecord` condition: (1) a point-like mapping having `y`
but not `x` is silently skipped — the walk just recurses into the value
and neither emits an entity for the mapping nor fails; (2) a river node
record must contain *every* field for `Node.__init__` to succeed —
including `outlet`, which may be falsy but, contrary to the claim, may
not be absent; (3) a record missing `i` fails with a `KeyError` naming
the field. -/
theorem claim_C8 :
    (∀ v, recurse (.obj [("y", v)]) = recurse v) ∧
      (∀ d r, mkNodeJ d = .ok r →
        ∀ k ∈ ["i", "indices", "uv", "h", "neighbors", "inlets", "outlet",
          "direction", "fork_angle", "strahler"], containsKey d k = true) ∧
      (∀ d, containsKey d "i" = false → mkNodeJ d = .error "KeyError: i") := by
  refine ⟨fun v => ?_, fun d r h k hk => ?_, fun d hc => ?_⟩
  · simp [recurse, recObjLoop, containsKey]
  · simp only [mkNodeJ] at h
    repeat' split at h
    all_goals try exact Except.noConfusion h
    all_goals
      fin_cases hk <;> exact contains_of_getK_ok (by assumption)
  · simp [mkNodeJ, getK_of_not_contains hc]

/-- Witness for C8: a record with every field but `outlet` satisfies part
(2)'s contrapositive through part (3)'s shape — concretely, the empty
record fails with `KeyError: i`, as part (3) applied at `d = []` shows. -/
theorem claim_C8_witness : mkNodeJ [] = .error "KeyError: i" :=
  claim_C8.2.2 [] rfl

/-- Claim C8 (counterexample to the claim as stated).  A point-like mapping
with `y` but no `x` is silently skipped (no entity, no failure), and a
river record with every required field except `outlet` raises
`KeyError: outlet` instead of defaulting the field to absent. -/
theorem claim_C8_counterexample :
    recurse (.obj [("y", .num 2)]) = [] ∧
      mkNodeJ [("i", .num 0), ("indices", .obj [("x", .num 0), ("y", .num 0)]),
        ("uv", .obj [("x", .num 0), ("y", .num 0)]), ("h", .num 5),
        ("neighbors", .arr []), ("inlets", .arr []),
        ("direction", .obj [("x", .num 0), ("y", .num 0)]),
        ("fork_angle", .num 0), ("strahler", .num 1)] = .error "KeyError: outlet" := by
  constructor
  · simp [recurse, recObjLoop, recList, containsKey]
  · rfl

/-! ## The `networkx.Graph` model -/

/-- A node position attribute: the raw pair passed as `pos=(x, y)`. -/
abbrev Pos := Jv × Jv

/-- An undirected `networkx.Graph` with edge attributes `α`.  Both stores
are association lists with the newest binding first, so that
first-match lookup realises networkx's last-write-wins attribute
semantics; the set of nodes (edges) is the set of keys. -/
structure NXGraph (α : Type) where
  nodes : List (Nat × Option Pos)
  edges : List ((Nat × Nat) × α)

/-- `nx.Graph()`. -/
def NXGraph.empty {α : Type} : NXGraph α := ⟨[], []⟩

/-- The normalised key of an undirected edge. -/
def ekey (a b : Nat) : Nat × Nat := if a ≤ b then (a, b) else (b, a)

/-- The node keys of the graph (with multiplicity of rebinding). -/
def NXGraph.nodeIds {α : Type} (g : NXGraph α) : List Nat := g.nodes.map Prod.fst

/-- Attribute lookup for node `i`: `none` when the node is absent,
`some none` when it is present without a `pos` attribute, and
`some (some p)` when it carries position `p`. -/
def NXGraph.posOf {α : Type} (g : NXGraph α) (i : Nat) : Option (Option Pos) :=
  (g.nodes.find? (fun e => e.1 == i)).map Prod.snd

/-- `graph.add_node(i, pos=p)`: (re)binds the node's position. -/
def NXGraph.addNode {α : Type} (g : NXGraph α) (i : Nat) (p : Pos) : NXGraph α :=
  { g with nodes := (i, some p) :: g.nodes }

/-- The implicit endpoint insertion performed by `add_edge`: a missing
endpoint becomes a node with no attributes. -/
def NXGraph.ensureNode {α : Type} (g : NXGraph α) (i : Nat) : NXGraph α :=
  if i ∈ g.nodeIds then g else { g with nodes := (i, none) :: g.nodes }

/-- `graph.add_edge(a, b, **attr)`: inserts missing endpoints, then binds
the unordered edge's attributes (rebinding shadows older bindings). -/
def NXGraph.addEdge {α : Type} (g : NXGraph α) (a b : Nat) (attr : α) : NXGraph α :=
  let g1 := (g.ensureNode a).ensureNode b
  { g1 with edges := (ekey a b, attr) :: g1.edges }

/-- The attributes currently bound to the undirected edge `{a, b}`. -/
def NXGraph.edgeAttr {α : Type} (g : NXGraph α) (a b : Nat) : Option α :=
  (g.edges.find? (fun e => decide (e.1 = ekey a b))).map Prod.snd

lemma nodeIds_addNode {α : Type} (g : NXGraph α) (i : Nat) (p : Pos) :
    (g.addNode i p).nodeIds = i :: g.nodeIds := rfl

lemma edges_addNode {α : Type} (g : NXGraph α) (i : Nat) (p : Pos) :
    (g.addNode i p).edges = g.edges := rfl

lemma edges_ensureNode {α : Type} (g : NXGraph α) (i : Nat) :
    (g.ensureNode i).edges = g.edges := by
  unfold NXGraph.ensureNode
  split <;> rfl

lemma edges_addEdge {α : Type} (g : NXGraph α) (a b : Nat) (t : α) :
    (g.addEdge a b t).edges = (ekey a b, t) :: g.edges := by
  simp [NXGraph.addEdge, edges_ensureNode]

lemma mem_nodeIds_ensureNode {α : Type} (g : NXGraph α) (i j : Nat) :
    j ∈ (g.ensureNode i).nodeIds ↔ j = i ∨ j ∈ g.nodeIds := by
  by_cases h : i ∈ g.nodeIds
  · rw [NXGraph.ensureNode, if_pos h]
    constructor
    · exact fun hj => Or.inr hj
    · rintro (rfl | hj)
      · exact h
      · exact hj
  · rw [NXGraph.ensureNode, if_neg h]
    simp [NXGraph.nodeIds]

lemma mem_nodeIds_addEdge {α : Type} (g : NXGraph α) (a b j : Nat) (t : α) :
    j ∈ (g.addEdge a b t).nodeIds ↔ j = a ∨ j = b ∨ j ∈ g.nodeIds := by
  show j ∈ ((g.ensureNode a).ensureNode b).nodeIds ↔ _
  rw [mem_nodeIds_ensureNode, mem_nodeIds_ensureNode]
  tauto

lemma posOf_addNode {α : Type} (g : NXGraph α) (i j : Nat) (p : Pos) :
    (g.addNode i p).posOf j = if i = j then some (some p) else g.posOf j := by
  unfold NXGraph.posOf NXGraph.addNode
  by_cases h : i = j
  · subst h
    rw [List.find?_cons_of_pos]
    · simp
    · simp
  · rw [List.find?_cons_of_neg]
    · simp [h]
    · simp [h]

lemma posOf_ensureNode {α : Type} (g : NXGraph α) (i j : Nat) :
    (g.ensureNode i).posOf j =
      if i ∈ g.nodeIds then g.posOf j
      else if i = j then some none else g.posOf j := by
  by_cases h : i ∈ g.nodeIds
  · rw [NXGraph.ensureNode, if_pos h, if_pos h]
  · rw [NXGraph.ensureNode, if_neg h, if_neg h]
    unfold NXGraph.posOf
    by_cases hij : i = j
    · subst hij
      rw [List.find?_cons_of_pos]
      · simp
      · simp
    · rw [List.find?_cons_of_neg]
      · simp [hij]
      · simp [hij]

lemma posOf_ensureNode_mem {α : Type} (g : NXGraph α) (i j : Nat)
    (hj : j ∈ g.nodeIds) : (g.ensureNode i).posOf j = g.posOf j := by
  rw [posOf_ensureNode]
  by_cases h : i ∈ g.nodeIds
  · rw [if_pos h]
  · rw [if_neg h]
    have hij : ¬i = j := fun hij => h (hij ▸ hj)
    rw [if_neg hij]

lemma posOf_addEdge {α : Type} (g : NXGraph α) (a b j : Nat) (t : α)
    (hj : j ∈ g.nodeIds) : (g.addEdge a b t).posOf j = g.posOf j := by
  show ((g.ensureNode a).ensureNode b).posOf j = _
  rw [posOf_ensureNode_mem _ b j ((mem_nodeIds_ensureNode g a j).mpr (Or.inr hj)),
    posOf_ensureNode_mem _ a j hj]

/-- A node of the graph either carries a position attribute or occurs as
an endpoint of a recorded edge. -/
def okNodes {α : Type} (g : NXGraph α) : Prop :=
  ∀ e ∈ g.nodes, e.2.isSome = true ∨ ∃ ed ∈ g.edges, e.1 = ed.1.1 ∨ e.1 = ed.1.2

lemma ekey_left (a b : Nat) : a = (ekey a b).1 ∨ a = (ekey a b).2 := by
  unfold ekey
  split <;> simp

lemma ekey_right (a b : Nat) : b = (ekey a b).1 ∨ b = (ekey a b).2 := by
  unfold ekey
  split <;> simp

lemma okNodes_empty {α : Type} : okNodes (NXGraph.empty : NXGraph α) := by
  simp [okNodes, NXGraph.empty]

lemma okNodes_addNode {α : Type} {g : NXGraph α} (h : okNodes g) (i : Nat) (p : Pos) :
    okNodes (g.addNode i p) := by
  intro e he
  rcases List.mem_cons.mp he with rfl | he2
  · left; rfl
  · exact h e he2

lemma mem_nodes_ensureNode {α : Type} {g : NXGraph α} {i : Nat} {e : Nat × Option Pos}
    (he : e ∈ (g.ensureNode i).nodes) : e = (i, none) ∨ e ∈ g.nodes := by
  unfold NXGraph.ensureNode at he
  split at he
  · exact Or.inr he
  · rcases List.mem_cons.mp he with he2 | he2
    · exact Or.inl he2
    · exact Or.inr he2

lemma okNodes_addEdge {α : Type} {g : NXGraph α} (h : okNodes g) (a b : Nat) (t : α) :
    okNodes (g.addEdge a b t) := by
  intro e he
  have hedge : (ekey a b, t) ∈ (g.addEdge a b t).edges := by
    rw [edges_addEdge]
    exact List.mem_cons_self _ _
  have he' : e ∈ ((g.ensureNode a).ensureNode b).nodes := he
  rcases mem_nodes_ensureNode he' with rfl | he2
  · exact Or.inr ⟨(ekey a b, t), hedge, ekey_right a b⟩
  · rcases mem_nodes_ensureNode he2 with rfl | he3
    · exact Or.inr ⟨(ekey a b, t), hedge, ekey_left a b⟩
    · rcases h e he3 with hs | ⟨ed, hed, hend⟩
      · exact Or.inl hs
      · refine Or.inr ⟨ed, ?_, hend⟩
        rw [edges_addEdge]
        exact List.mem_cons_of_mem _ hed

/-! ## The town graph (`town_graph.py`) -/

/-- A town node record: `Node.__init__` keeps `d['uv']` and `d['i']`. -/
structure TownNodeRec where
  i : Nat
  uv : Pos

/-- A town edge record: `Edge.__init__` keeps `d['a']` and `d['b']`. -/
structure TownEdgeRec where
  a : Nat
  b : Nat

/-- The node loop of `graph_town`: `for node_data, _rect in nodes.values()`
constructs a `Node` and adds it with its position; the paired auxiliary
value is discarded. -/
def addTownNodes : List (TownNodeRec × Jv) → NXGraph Unit → NXGraph Unit
  | [], g => g
  | (n, _) :: rest, g => addTownNodes rest (g.addNode n.i n.uv)

/-- The edge loop of `graph_town`: `for edge_dict, _rect in edges.values()`
constructs an `Edge` and adds it (with no attributes). -/
def addTownEdges : List (TownEdgeRec × Jv) → NXGraph Unit → NXGraph Unit
  | [], g => g
  | (e, _) :: rest, g => addTownEdges rest (g.addEdge e.a e.b ())

/-- `graph_town` of `town_graph.py` (graph assembly only): all nodes are
added first, then all edges, into a fresh `nx.Graph`. -/
def townGraph (ns : List (TownNodeRec × Jv)) (es : List (TownEdgeRec × Jv)) :
    NXGraph Unit :=
  addTownEdges es (addTownNodes ns NXGraph.empty)

/-- The town document of the C9 scenario:
nodes `{0: [{"i": 0, "uv": {"x": 0, "y": 0}}, null]}`. -/
def townNodesC9 : List (TownNodeRec × Jv) := [(⟨0, (.num 0, .num 0)⟩, .null)]

/-- The town document of the C9 scenario:
edges `{0: [{"a": 0, "b": 99}, null]}`, where no node `99` exists. -/
def townEdgesC9 : List (TownEdgeRec × Jv) := [(⟨0, 99⟩, .null)]

/-- Claim C9 (amended).  On the dangling-edge town document the build
neither drops the offending edge nor fails: `add_edge` inserts the
unknown endpoint `99` as a fresh node carrying no position, and the
resulting graph has exactly two nodes (`99` and `0`) and one edge
`(0, 99)`. -/
theorem claim_C9 :
    (townGraph townNodesC9 townEdgesC9).nodeIds = [99, 0] ∧
      (townGraph townNodesC9 townEdgesC9).edges = [((0, 99), ())] ∧
      (townGraph townNodesC9 townEdgesC9).posOf 99 = some none ∧
      (townGraph townNodesC9 townEdgesC9).posOf 0 = some (some (.num 0, .num 0)) := by
  refine ⟨rfl, rfl, rfl, rfl⟩

/-- Claim C9 (counterexample to the claim as stated).  The build of the
dangling-edge town document succeeds and produces a graph with 2 nodes
and 1 edge — not the claimed 1-node/0-edge graph, and not a failure:
the dangling edge `(0, 99)` is present in the output. -/
theorem claim_C9_counterexample :
    (townGraph townNodesC9 townEdgesC9).nodeIds.length = 2 ∧
      (townGraph townNodesC9 townEdgesC9).edges.length = 1 ∧
      ((0, 99), ()) ∈ (townGraph townNodesC9 townEdgesC9).edges ∧
      ¬((townGraph townNodesC9 townEdgesC9).nodeIds.length = 1 ∧
        (townGraph townNodesC9 townEdgesC9).edges.length = 0) := by
  refine ⟨rfl, rfl, ?_, ?_⟩
  · show _ ∈ [((0, 99), ())]
    exact List.mem_singleton.mpr rfl
  · rintro ⟨h1, -⟩
    rw [show (townGraph townNodesC9 townEdgesC9).nodeIds = [99, 0] from rfl] at h1
    simp at h1

/-! ## The river graph (`river_graph.py`) -/

/-- A river node record as typed by the wire contract: `i` a uint,
`indices`/`uv`/`direction` coordinate mappings, `h` a number,
`neighbors`/`inlets` sequences of uints (possibly the sentinel),
`outlet` a uint or falsy value, `strahler` a uint. -/
structure RiverRec where
  i : Nat
  indices : Pos
  uv : Pos
  h : Int
  neighbors : List Nat
  inlets : List Nat
  outlet : Jv
  direction : Pos
  fork_angle : Jv
  strahler : Nat

/-- The constructed `Node` of `river_graph.py` (wire-typed view): the
adjacency lists are sentinel-filtered, a falsy `outlet` became `None`. -/
structure RNode where
  i : Nat
  indices : Pos
  uv : Pos
  h : Int
  neighbors : List Nat
  inlets : List Nat
  outlet : Option Jv
  direction : Pos
  fork_angle : Jv
  strahler : Nat

instance : Inhabited RNode :=
  ⟨⟨0, (.null, .null), (.null, .null), 0, [], [], none, (.null, .null), .null, 0⟩⟩

/-- `Node(**d)` of `river_graph.py` on a wire-typed record. -/
def mkRNode (r : RiverRec) : RNode :=
  { i := r.i
    indices := r.indices
    uv := r.uv
    h := r.h
    neighbors := r.neighbors.filter (fun x => x != USIZE_MAX)
    inlets := r.inlets.filter (fun x => x != USIZE_MAX)
    outlet := if truthy r.outlet then some r.outlet else none
    direction := r.direction
    fork_angle := r.fork_angle
    strahler := r.strahler }

/-- A river graph: edges carry `color='b'` and `width=strahler`. -/
abbrev RGraph := NXGraph (String × Nat)

/-- The node pass of `graph`: a node with `h < 0` and no (filtered)
inlets is skipped; every other node is added keyed by its `i` with its
`uv` position. -/
def addRNodes : List RNode → RGraph → RGraph
  | [], g => g
  | n :: rest, g =>
    addRNodes rest (if n.h < 0 ∧ n.inlets = [] then g else g.addNode n.i n.uv)

/-- The inner loop of the edge pass: for every inlet of `src` that is not
the sentinel, add the edge `(src, inlet)` with `color='b'` and
`width = nodes[inlet].strahler`, where `nodes[inlet]` indexes the full
node *list* and raises `IndexError` when out of range. -/
def addInletEdges (ns : List RNode) (src : Nat) : List Nat → RGraph → Except String RGraph
  | [], g => .ok g
  | m :: rest, g =>
    if m ≠ USIZE_MAX then
      match ns[m]? with
      | some nm => addInletEdges ns src rest (g.addEdge src m ("b", nm.strahler))
      | none => .error "IndexError: list index out of range"
    else
      addInletEdges ns src rest g

/-- The edge pass of `graph`: iterates over *every* constructed node
(the skipped ones included) and adds its inlet edges. -/
def addRiverEdges (ns : List RNode) : List RNode → RGraph → Except String RGraph
  | [], g => .ok g
  | n :: rest, g =>
    match addInletEdges ns n.i n.inlets g with
    | .ok g2 => addRiverEdges ns rest g2
    | .error e => .error e

/-- The `graph` command of `river_graph.py` (graph assembly only): all
`Node`s are constructed, the node pass runs, then the edge pass. -/
def riverGraph (recs : List RiverRec) : Except String RGraph :=
  let ns := recs.map mkRNode
  addRiverEdges ns ns (addRNodes ns NXGraph.empty)

/-- The edge bindings produced, in order, by the inlet loop of `src`. -/
def inletWrites (ns : List RNode) (src : Nat) (ms : List Nat) :
    List ((Nat × Nat) × (String × Nat)) :=
  (ms.filter (fun m => m != USIZE_MAX)).map
    (fun m => (ekey src m, ("b", (ns.getD m default).strahler)))

/-- The edge bindings produced, in order, by the whole edge pass. -/
def riverWrites (ns l : List RNode) : List ((Nat × Nat) × (String × Nat)) :=
  l.flatMap (fun n => inletWrites ns n.i n.inlets)

lemma mkRNode_inlets_ne (r : RiverRec) :
    ∀ m ∈ (mkRNode r).inlets, (m != USIZE_MAX) = true := by
  intro m hm
  have hm2 : m ∈ r.inlets.filter (fun x => x != USIZE_MAX) := hm
  exact (List.mem_filter.mp hm2).2

lemma inlets_filter_idem (n : RNode) (recs : List RiverRec)
    (hn : n ∈ recs.map mkRNode) :
    n.inlets.filter (fun m => m != USIZE_MAX) = n.inlets := by
  rcases List.mem_map.mp hn with ⟨r, -, rfl⟩
  exact List.filter_eq_self.mpr (mkRNode_inlets_ne r)

lemma ekey_cases (a b : Nat) : ekey a b = (a, b) ∨ ekey a b = (b, a) := by
  unfold ekey
  split <;> simp

lemma posOf_not_mem {α : Type} (g : NXGraph α) (j : Nat) (hj : j ∉ g.nodeIds) :
    g.posOf j = none := by
  unfold NXGraph.posOf
  rw [List.find?_eq_none.mpr, Option.map_none']
  intro e he hbeq
  exact hj (List.mem_map.mpr ⟨e, he, by simpa using hbeq⟩)

lemma posOf_ensureNode_flat {α : Type} (g : NXGraph α) (i j : Nat)
    (h : g.posOf j = none ∨ g.posOf j = some none) :
    (g.ensureNode i).posOf j = none ∨ (g.ensureNode i).posOf j = some none := by
  rw [posOf_ensureNode]
  by_cases h1 : i ∈ g.nodeIds
  · rw [if_pos h1]; exact h
  · rw [if_neg h1]
    by_cases h2 : i = j
    · rw [if_pos h2]; exact Or.inr rfl
    · rw [if_neg h2]; exact h

lemma posOf_addEdge_flat {α : Type} (g : NXGraph α) (a b j : Nat) (t : α)
    (h : g.posOf j = none ∨ g.posOf j = some none) :
    (g.addEdge a b t).posOf j = none ∨ (g.addEdge a b t).posOf j = some none := by
  show ((g.ensureNode a).ensureNode b).posOf j = none ∨ _ = some none
  exact posOf_ensureNode_flat _ b j (posOf_ensureNode_flat _ a j h)

/-- Full characterisation of one run of the inlet loop: the edge bindings
it prepends, the node ids it adds (the source and each non-sentinel
inlet), preservation of existing node attributes, preservation of
position-lessness, and the index bound needed for it to succeed. -/
lemma addInletEdges_spec (ns : List RNode) (src : Nat) :
    ∀ (ms : List Nat) (g g' : RGraph), addInletEdges ns src ms g = .ok g' →
      g'.edges = (inletWrites ns src ms).reverse ++ g.edges ∧
      (∀ j, j ∈ g'.nodeIds ↔
        (∃ m ∈ ms, (m != USIZE_MAX) = true ∧ (j = src ∨ j = m)) ∨ j ∈ g.nodeIds) ∧
      (∀ j, j ∈ g.nodeIds → g'.posOf j = g.posOf j) ∧
      (∀ j, g.posOf j = none ∨ g.posOf j = some none →
        g'.posOf j = none ∨ g'.posOf j = some none) ∧
      (∀ m ∈ ms, m ≠ USIZE_MAX → m < ns.length) := by
  intro ms
  induction ms with
  | nil =>
    intro g g' h
    have hg : g = g' := by simpa [addInletEdges] using h
    subst hg
    refine ⟨by simp [inletWrites], fun j => by simp, fun j _ => rfl, fun j hj => hj, by simp⟩
  | cons m rest ih =>
    intro g g' h
    rw [addInletEdges] at h
    by_cases hm : m = USIZE_MAX
    · rw [if_neg (not_not_intro hm)] at h
      obtain ⟨e1, e2, e3, e4, e5⟩ := ih g g' h
      subst hm
      refine ⟨?_, ?_, e3, e4, ?_⟩
      · simpa [inletWrites] using e1
      · intro j
        rw [e2 j]
        constructor
        · rintro (⟨m', hm', hp⟩ | hg)
          · exact Or.inl ⟨m', List.mem_cons_of_mem _ hm', hp⟩
          · exact Or.inr hg
        · rintro (⟨m', hm', hp⟩ | hg)
          · rcases List.mem_cons.mp hm' with rfl | hm2
            · exact absurd hp.1 (by simp)
            · exact Or.inl ⟨m', hm2, hp⟩
          · exact Or.inr hg
      · intro m' hm' hne
        rcases List.mem_cons.mp hm' with rfl | hm2
        · exact absurd rfl hne
        · exact e5 m' hm2 hne
    · have hbne : (m != USIZE_MAX) = true := by simpa using hm
      rw [if_pos hm] at h
      cases hget : ns[m]? with
      | none => rw [hget] at h; exact Except.noConfusion h
      | some nm =>
        rw [hget] at h
        obtain ⟨e1, e2, e3, e4, e5⟩ := ih (g.addEdge src m ("b", nm.strahler)) g' h
        have hgd : ns.getD m default = nm := by
          rw [List.getD_eq_getElem?_getD, hget]
          rfl
        have hlt : m < ns.length := by
          by_contra hge
          rw [List.getElem?_eq_none (Nat.le_of_not_lt hge)] at hget
          exact Option.noConfusion hget
        refine ⟨?_, ?_, ?_, ?_, ?_⟩
        · rw [e1, edges_addEdge]
          simp [inletWrites, List.filter_cons, hbne, hgd, hget, List.append_assoc]
        · intro j
          rw [e2 j, mem_nodeIds_addEdge]
          constructor
          · rintro (⟨m', hm', hp⟩ | (h1 | h2 | hjg))
            · exact Or.inl ⟨m', List.mem_cons_of_mem _ hm', hp⟩
            · exact Or.inl ⟨m, List.mem_cons_self _ _, hbne, Or.inl h1⟩
            · exact Or.inl ⟨m, List.mem_cons_self _ _, hbne, Or.inr h2⟩
            · exact Or.inr hjg
          · rintro (⟨m', hm', hp⟩ | hjg)
            · rcases List.mem_cons.mp hm' with rfl | hm2
              · rcases hp.2 with rfl | rfl
                · exact Or.inr (Or.inl rfl)
                · exact Or.inr (Or.inr (Or.inl rfl))
              · exact Or.inl ⟨m', hm2, hp⟩
            · exact Or.inr (Or.inr (Or.inr hjg))
        · intro j hj
          have hj2 : j ∈ (g.addEdge src m ("b", nm.strahler)).nodeIds :=
            (mem_nodeIds_addEdge g src m j _).mpr (Or.inr (Or.inr hj))
          rw [e3 j hj2, posOf_addEdge g src m j _ hj]
        · intro j hflat
          exact e4 j (posOf_addEdge_flat g src m j _ hflat)
        · intro m' hm' hne
          rcases List.mem_cons.mp hm' with rfl | hm2
          · exact hlt
          · exact e5 m' hm2 hne

/-- Full characterisation of the edge pass of `graph`. -/
lemma addRiverEdges_spec (ns : List RNode) :
    ∀ (l : List RNode) (g g' : RGraph), addRiverEdges ns l g = .ok g' →
      g'.edges = (riverWrites ns l).reverse ++ g.edges ∧
      (∀ j, j ∈ g'.nodeIds ↔
        (∃ n ∈ l, ∃ m ∈ n.inlets, (m != USIZE_MAX) = true ∧ (j = n.i ∨ j = m)) ∨
          j ∈ g.nodeIds) ∧
      (∀ j, j ∈ g.nodeIds → g'.posOf j = g.posOf j) ∧
      (∀ j, g.posOf j = none ∨ g.posOf j = some none →
        g'.posOf j = none ∨ g'.posOf j = some none) ∧
      (∀ n ∈ l, ∀ m ∈ n.inlets, m ≠ USIZE_MAX → m < ns.length) := by
  intro l
  induction l with
  | nil =>
    intro g g' h
    have hg : g = g' := by simpa [addRiverEdges] using h
    subst hg
    refine ⟨by simp [riverWrites], fun j => by simp, fun j _ => rfl, fun j hj => hj, by simp⟩
  | cons n rest ih =>
    intro g g' h
    rw [addRiverEdges] at h
    cases hstep : addInletEdges ns n.i n.inlets g with
    | error e => rw [hstep] at h; exact Except.noConfusion h
    | ok g2 =>
      rw [hstep] at h
      obtain ⟨f1, f2, f3, f4, f5⟩ := addInletEdges_spec ns n.i n.inlets g g2 hstep
      obtain ⟨e1, e2, e3, e4, e5⟩ := ih g2 g' h
      refine ⟨?_, ?_, ?_, ?_, ?_⟩
      · rw [e1, f1]
        simp [riverWrites, List.reverse_append, List.append_assoc]
      · intro j
        rw [e2 j, f2 j]
        constructor
        · rintro (⟨n', hn', hp⟩ | ⟨m', hm', hp⟩ | hjg)
          · exact Or.inl ⟨n', List.mem_cons_of_mem _ hn', hp⟩
          · exact Or.inl ⟨n, List.mem_cons_self _ _, m', hm', hp⟩
          · exact Or.inr hjg
        · rintro (⟨n', hn', hp⟩ | hjg)
          · rcases List.mem_cons.mp hn' with rfl | hn2
            · rcases hp with ⟨m', hm', hp'⟩
              exact Or.inr (Or.inl ⟨m', hm', hp'⟩)
            · exact Or.inl ⟨n', hn2, hp⟩
          · exact Or.inr (Or.inr hjg)
      · intro j hj
        have hj2 : j ∈ g2.nodeIds := (f2 j).mpr (Or.inr hj)
        rw [e3 j hj2, f3 j hj]
      · intro j hflat
        exact e4 j (f4 j hflat)
      · intro n' hn' m' hm' hne
        rcases List.mem_cons.mp hn' with rfl | hn2
        · exact f5 m' hm' hne
        · exact e5 n' hn2 m' hm' hne

lemma addRNodes_edges : ∀ (l : List RNode) (g : RGraph), (addRNodes l g).edges = g.edges := by
  intro l
  induction l with
  | nil => intro g; rfl
  | cons n rest ih =>
    intro g
    rw [addRNodes, ih]
    by_cases hc : n.h < 0 ∧ n.inlets = []
    · rw [if_pos hc]
    · rw [if_neg hc]; rfl

lemma mem_nodeIds_addRNodes : ∀ (l : List RNode) (g : RGraph) (j : Nat),
    j ∈ (addRNodes l g).nodeIds ↔
      (∃ n ∈ l, ¬(n.h < 0 ∧ n.inlets = []) ∧ n.i = j) ∨ j ∈ g.nodeIds := by
  intro l
  induction l with
  | nil => intro g j; simp [addRNodes]
  | cons n rest ih =>
    intro g j
    rw [addRNodes]
    by_cases hc : n.h < 0 ∧ n.inlets = []
    · rw [if_pos hc, ih]
      constructor
      · rintro (⟨n', hn', hp⟩ | hg)
        · exact Or.inl ⟨n', List.mem_cons_of_mem _ hn', hp⟩
        · exact Or.inr hg
      · rintro (⟨n', hn', hp⟩ | hg)
        · rcases List.mem_cons.mp hn' with rfl | hn2
          · exact absurd hc hp.1
          · exact Or.inl ⟨n', hn2, hp⟩
        · exact Or.inr hg
    · rw [if_neg hc, ih]
      constructor
      · rintro (⟨n', hn', hp⟩ | hg)
        · exact Or.inl ⟨n', List.mem_cons_of_mem _ hn', hp⟩
        · rcases List.mem_cons.mp hg with h1 | h2
          · exact Or.inl ⟨n, List.mem_cons_self _ _, hc, h1.symm⟩
          · exact Or.inr h2
      · rintro (⟨n', hn', hp⟩ | hg)
        · rcases List.mem_cons.mp hn' with rfl | hn2
          · exact Or.inr (List.mem_cons.mpr (Or.inl hp.2.symm))
          · exact Or.inl ⟨n', hn2, hp⟩
        · exact Or.inr (List.mem_cons.mpr (Or.inr hg))

lemma posOf_addRNodes_skip : ∀ (l : List RNode) (g : RGraph) (j : Nat),
    (∀ n ∈ l, ¬(n.h < 0 ∧ n.inlets = []) → n.i ≠ j) →
    (addRNodes l g).posOf j = g.posOf j := by
  intro l
  induction l with
  | nil => intro g j _; rfl
  | cons n rest ih =>
    intro g j hskip
    rw [addRNodes]
    by_cases hc : n.h < 0 ∧ n.inlets = []
    · rw [if_pos hc]
      exact ih g j (fun n' hn' => hskip n' (List.mem_cons_of_mem _ hn'))
    · rw [if_neg hc]
      rw [ih _ j (fun n' hn' => hskip n' (List.mem_cons_of_mem _ hn')), posOf_addNode]
      rw [if_neg (hskip n (List.mem_cons_self _ _) hc)]

/-- In an edge store whose keys are pairwise distinct, the lookup of a
present binding returns exactly its attributes. -/
lemma find_attr_of_nodup {β : Type} : ∀ (l : List ((Nat × Nat) × β)),
    (l.map Prod.fst).Nodup → ∀ (k : Nat × Nat) (t : β), (k, t) ∈ l →
    (l.find? (fun e => decide (e.1 = k))).map Prod.snd = some t := by
  intro l
  induction l with
  | nil => intro _ k t hmem; exact absurd hmem (List.not_mem_nil _)
  | cons e rest ih =>
    intro hnd k t hmem
    rcases List.nodup_cons.mp hnd with ⟨hnotin, hnd2⟩
    by_cases hk : e.1 = k
    · rw [List.find?_cons_of_pos _ (by simpa using hk)]
      rcases List.mem_cons.mp hmem with rfl | hmem2
      · rfl
      · exact absurd (List.mem_map.mpr ⟨(k, t), hmem2, rfl⟩) (hk ▸ hnotin)
    · rw [List.find?_cons_of_neg _ (by simpa using hk)]
      rcases List.mem_cons.mp hmem with rfl | hmem2
      · exact (hk rfl).elim
      · exact ih hnd2 k t hmem2

lemma mem_inlets_bne (recs : List RiverRec) (n : RNode) (hn : n ∈ recs.map mkRNode)
    (m : Nat) (hm : m ∈ n.inlets) : (m != USIZE_MAX) = true := by
  rcases List.mem_map.mp hn with ⟨r, -, rfl⟩
  exact mkRNode_inlets_ne r m hm

/-- Claim C1 (amended).  In a river document with pairwise distinct node
ids, a record with negative elevation and empty filtered inlets is never
given a node by the node pass — it carries no position in the output
graph — but, contrary to the claim, its id still appears as a node of
the output graph exactly when some record's filtered inlets reference
it, because `add_edge` inserts missing endpoints.  A record with
negative elevation and non-empty inlets is always present. -/
theorem claim_C1 (recs : List RiverRec) (g' : RGraph)
    (hok : riverGraph recs = .ok g')
    (hnd : ((recs.map mkRNode).map RNode.i).Nodup)
    (r : RNode) (hr : r ∈ recs.map mkRNode) (hneg : r.h < 0) :
    (r.inlets = [] →
      (¬∃ p, g'.posOf r.i = some (some p)) ∧
        (r.i ∈ g'.nodeIds ↔ ∃ n ∈ recs.map mkRNode, r.i ∈ n.inlets)) ∧
    (r.inlets ≠ [] → r.i ∈ g'.nodeIds) := by
  simp only [riverGraph] at hok
  obtain ⟨e1, e2, e3, e4, e5⟩ :=
    addRiverEdges_spec (recs.map mkRNode) (recs.map mkRNode)
      (addRNodes (recs.map mkRNode) NXGraph.empty) g' hok
  have hinj := List.inj_on_of_nodup_map hnd
  constructor
  · intro hin
    have hnok : ∀ n ∈ recs.map mkRNode, ¬(¬(n.h < 0 ∧ n.inlets = []) ∧ n.i = r.i) := by
      rintro n hn ⟨hk, hi⟩
      exact hk (hinj hn hr hi ▸ ⟨hneg, hin⟩)
    have hg1mem : r.i ∉ (addRNodes (recs.map mkRNode) NXGraph.empty).nodeIds := by
      rw [mem_nodeIds_addRNodes]
      rintro (⟨n, hn, hp⟩ | hg)
      · exact hnok n hn hp
      · simpa [NXGraph.empty, NXGraph.nodeIds] using hg
    have hg1pos : (addRNodes (recs.map mkRNode) NXGraph.empty).posOf r.i = none := by
      rw [posOf_addRNodes_skip _ _ _ (fun n hn hk hij => hnok n hn ⟨hk, hij⟩)]
      rfl
    constructor
    · rcases e4 r.i (Or.inl hg1pos) with hflat | hflat <;>
        · rintro ⟨p, hp⟩
          rw [hflat] at hp
          simp at hp
    · rw [e2 r.i]
      constructor
      · rintro (⟨n, hn, m, hm, hbne, (hji | hji)⟩ | hg1)
        · exact absurd (hinj hr hn hji) (fun he => (List.ne_nil_of_mem hm) (he ▸ hin))
        · exact ⟨n, hn, hji ▸ hm⟩
        · exact absurd hg1 hg1mem
      · rintro ⟨n, hn, hm⟩
        exact Or.inl ⟨n, hn, r.i, hm, mem_inlets_bne recs n hn r.i hm, Or.inr rfl⟩
  · intro hin
    have hkept : ¬(r.h < 0 ∧ r.inlets = []) := fun hc => hin hc.2
    refine (e2 r.i).mpr (Or.inr ?_)
    exact (mem_nodeIds_addRNodes _ _ _).mpr (Or.inl ⟨r, hr, hkept, rfl⟩)

/-- A river document with an excluded node (id 0, `h = -1`, no inlets)
that node 1 references as an inlet. -/
def riverDocC1 : List RiverRec :=
  [⟨0, (.num 0, .num 0), (.num 0, .num 0), -1, [], [], .null, (.num 0, .num 0), .num 0, 1⟩,
   ⟨1, (.num 0, .num 0), (.num 1, .num 1), 5, [], [0], .null, (.num 0, .num 0), .num 0, 3⟩]

/-- The graph the `graph` command builds from `riverDocC1`. -/
def riverGraphC1 : RGraph := ((riverGraph riverDocC1).toOption).getD NXGraph.empty

/-- Claim C1 (counterexample to the claim as stated).  Record 0 has
elevation `-1 < 0` and an empty inlets list, yet its id `0` appears as a
node of the output graph (with no position attribute): the edge pass
added the edge `(1, 0)` for node 1's inlet, and `add_edge` inserted the
missing endpoint. -/
theorem claim_C1_counterexample :
    riverGraph riverDocC1 = .ok riverGraphC1 ∧
      (riverDocC1.get ⟨0, by decide⟩).h < 0 ∧
      (mkRNode (riverDocC1.get ⟨0, by decide⟩)).inlets = [] ∧
      (riverDocC1.get ⟨0, by decide⟩).i = 0 ∧
      0 ∈ riverGraphC1.nodeIds ∧
      riverGraphC1.posOf 0 = some none := by
  refine ⟨rfl, by decide, rfl, rfl, by decide, rfl⟩

/-- Witness for C1: on `riverDocC1`, the excluded record 0 has no
position in the output, and its id is present precisely because node 1
lists it as an inlet. -/
theorem claim_C1_witness :
    (¬∃ p, riverGraphC1.posOf 0 = some (some p)) ∧
      (0 ∈ riverGraphC1.nodeIds ↔ ∃ n ∈ riverDocC1.map mkRNode, 0 ∈ n.inlets) := by
  have h := claim_C1 riverDocC1 riverGraphC1 rfl (by decide)
    (mkRNode (riverDocC1.get ⟨0, by decide⟩))
    (List.mem_map.mpr ⟨riverDocC1.get ⟨0, by decide⟩, List.get_mem _ _ _, rfl⟩)
    (by decide)
  exact h.1 rfl

/-- Claim C7 (amended).  Sentinel filtering works for the adjacency lists:
the constructed entity's filtered `neighbors`/`inlets` never contain
`USIZE_MAX`, and consequently no edge endpoint arising from an inlet
entry is the sentinel; but the node's own `i` field is never checked, so
the sentinel can still enter the graph as a node identity when a record
carries `i = USIZE_MAX`.  Under the extra hypothesis that no record's id
is the sentinel, the sentinel appears neither as a node id nor as an
edge endpoint. -/
theorem claim_C7 :
    (∀ r : RiverRec,
      USIZE_MAX ∉ (mkRNode r).neighbors ∧ USIZE_MAX ∉ (mkRNode r).inlets) ∧
      (∀ (recs : List RiverRec) (g' : RGraph), riverGraph recs = .ok g' →
        (∀ n ∈ recs.map mkRNode, n.i ≠ USIZE_MAX) →
        USIZE_MAX ∉ g'.nodeIds ∧
          ∀ e ∈ g'.edges, e.1.1 ≠ USIZE_MAX ∧ e.1.2 ≠ USIZE_MAX) := by
  constructor
  · intro r
    constructor
    · intro hmem
      have hm2 : USIZE_MAX ∈ r.neighbors.filter (fun x => x != USIZE_MAX) := hmem
      have := (List.mem_filter.mp hm2).2
      simp at this
    · intro hmem
      have hm2 : USIZE_MAX ∈ r.inlets.filter (fun x => x != USIZE_MAX) := hmem
      have := (List.mem_filter.mp hm2).2
      simp at this
  · intro recs g' hok hi
    simp only [riverGraph] at hok
    obtain ⟨e1, e2, e3, e4, e5⟩ :=
      addRiverEdges_spec (recs.map mkRNode) (recs.map mkRNode)
        (addRNodes (recs.map mkRNode) NXGraph.empty) g' hok
    constructor
    · rw [e2 USIZE_MAX]
      rintro (⟨n, hn, m, hm, hbne, (hji | hji)⟩ | hg1)
      · exact hi n hn hji.symm
      · rw [hji] at hbne
        simp at hbne
      · rw [mem_nodeIds_addRNodes] at hg1
        rcases hg1 with ⟨n, hn, -, hni⟩ | hg
        · exact hi n hn hni
        · simpa [NXGraph.empty, NXGraph.nodeIds] using hg
    · intro e he
      rw [e1, addRNodes_edges] at he
      have he2 : e ∈ riverWrites (recs.map mkRNode) (recs.map mkRNode) := by
        rw [show (NXGraph.empty : RGraph).edges = [] from rfl, List.append_nil] at he
        exact List.mem_reverse.mp he
      rcases List.mem_flatMap.mp he2 with ⟨n, hn, hw⟩
      rw [inletWrites, inlets_filter_idem n recs hn] at hw
      rcases List.mem_map.mp hw with ⟨m, hm, rfl⟩
      have hmne : m ≠ USIZE_MAX := by
        simpa using mem_inlets_bne recs n hn m hm
      have hine : n.i ≠ USIZE_MAX := hi n hn
      rcases ekey_cases n.i m with hek | hek
      · rw [hek]
        exact ⟨hine, hmne⟩
      · rw [hek]
        exact ⟨hmne, hine⟩

/-- A river record whose own id is the sentinel (and whose raw
`neighbors` contain it too). -/
def riverDocC7 : List RiverRec :=
  [⟨USIZE_MAX, (.num 0, .num 0), (.num 0, .num 0), 5, [USIZE_MAX], [], .null,
    (.num 0, .num 0), .num 0, 1⟩]

/-- The graph built from `riverDocC7`. -/
def riverGraphC7 : RGraph := ((riverGraph riverDocC7).toOption).getD NXGraph.empty

/-- Claim C7 (counterexample to the claim as stated).  A record whose raw
`neighbors` contain the sentinel — and whose `i` *is* the sentinel — is
retained (`h = 5 ≥ 0`), so `USIZE_MAX` appears as a live node identity
of the output graph. -/
theorem claim_C7_counterexample :
    riverGraph riverDocC7 = .ok riverGraphC7 ∧
      USIZE_MAX ∈ (riverDocC7.get ⟨0, by decide⟩).neighbors ∧
      USIZE_MAX ∈ riverGraphC7.nodeIds := by
  refine ⟨rfl, by decide, by decide⟩

/-- A sentinel-free river document (ids 0 and 1, one inlet edge). -/
def riverDocC7w : List RiverRec :=
  [⟨0, (.num 0, .num 0), (.num 0, .num 0), 5, [], [], .null, (.num 0, .num 0), .num 0, 2⟩,
   ⟨1, (.num 0, .num 0), (.num 1, .num 1), 5, [], [0, USIZE_MAX], .null,
    (.num 0, .num 0), .num 0, 4⟩]

/-- The graph built from `riverDocC7w`. -/
def riverGraphC7w : RGraph := ((riverGraph riverDocC7w).toOption).getD NXGraph.empty

/-- Witness for C7: a raw inlets list containing the sentinel is
filtered, and on a document whose ids are not the sentinel the output
graph contains the sentinel neither as node id nor as edge endpoint. -/
theorem claim_C7_witness :
    USIZE_MAX ∉ (mkRNode (riverDocC7w.get ⟨1, by decide⟩)).inlets ∧
      USIZE_MAX ∉ riverGraphC7w.nodeIds ∧
      (∀ e ∈ riverGraphC7w.edges, e.1.1 ≠ USIZE_MAX ∧ e.1.2 ≠ USIZE_MAX) := by
  have h2 := claim_C7.2 riverDocC7w riverGraphC7w rfl (by decide)
  exact ⟨(claim_C7.1 (riverDocC7w.get ⟨1, by decide⟩)).2, h2.1, h2.2⟩

/-- Claim C2 (amended).  For every node `N` and entry `M` of its filtered
inlets, the output graph has an edge between `N.i` and `M` with color
`'b'`; its weight is the `strahler` of the node at *list position* `M`
of the document's node sequence (the code evaluates
`nodes[inlet].strahler`, indexing the Python list, not resolving the
node whose identity is `M`), provided no two (node, inlet) pairs produce
the same undirected edge (otherwise the last write wins).  When,
additionally, every record's `i` equals its list position — as in
generator output — this weight is the strahler order of the inlet node
whose identity is `M`, as the claim intends. -/
theorem claim_C2 (recs : List RiverRec) (g' : RGraph)
    (hok : riverGraph recs = .ok g')
    (hnd : ((riverWrites (recs.map mkRNode) (recs.map mkRNode)).map Prod.fst).Nodup)
    (n : RNode) (hn : n ∈ recs.map mkRNode) (m : Nat) (hm : m ∈ n.inlets) :
    g'.edgeAttr n.i m =
        some ("b", ((recs.map mkRNode).getD m default).strahler) ∧
      m < (recs.map mkRNode).length ∧
      ((∀ k : Fin (recs.map mkRNode).length, ((recs.map mkRNode).get k).i = k) →
        ∃ nm ∈ recs.map mkRNode, nm.i = m ∧
          g'.edgeAttr n.i m = some ("b", nm.strahler)) := by
  simp only [riverGraph] at hok
  obtain ⟨e1, e2, e3, e4, e5⟩ :=
    addRiverEdges_spec (recs.map mkRNode) (recs.map mkRNode)
      (addRNodes (recs.map mkRNode) NXGraph.empty) g' hok
  have hbne := mem_inlets_bne recs n hn m hm
  have hmlt : m < (recs.map mkRNode).length := e5 n hn m hm (by simpa using hbne)
  have hmem : (ekey n.i m, ("b", ((recs.map mkRNode).getD m default).strahler)) ∈
      riverWrites (recs.map mkRNode) (recs.map mkRNode) := by
    refine List.mem_flatMap.mpr ⟨n, hn, ?_⟩
    rw [inletWrites, inlets_filter_idem n recs hn]
    exact List.mem_map.mpr ⟨m, hm, rfl⟩
  have hedges : g'.edges =
      (riverWrites (recs.map mkRNode) (recs.map mkRNode)).reverse := by
    rw [e1, addRNodes_edges]
    rw [show (NXGraph.empty : RGraph).edges = [] from rfl, List.append_nil]
  have hmain : g'.edgeAttr n.i m =
      some ("b", ((recs.map mkRNode).getD m default).strahler) := by
    rw [NXGraph.edgeAttr, hedges]
    refine find_attr_of_nodup _ ?_ _ _ (List.mem_reverse.mpr hmem)
    rw [List.map_reverse]
    exact List.nodup_reverse.mpr hnd
  refine ⟨hmain, hmlt, fun hid => ?_⟩
  have hgd : (recs.map mkRNode).getD m default = (recs.map mkRNode).get ⟨m, hmlt⟩ := by
    rw [List.getD_eq_getElem?_getD, List.getElem?_eq_getElem hmlt]
    rfl
  exact ⟨(recs.map mkRNode).get ⟨m, hmlt⟩, List.get_mem _ _ _, hid ⟨m, hmlt⟩,
    by rw [hmain, hgd]⟩

/-- A river document whose node ids differ from their list positions:
position 0 holds id 1 (strahler 5), position 1 holds id 0 (strahler 9)
with inlet `1`. -/
def riverDocC2 : List RiverRec :=
  [⟨1, (.num 0, .num 0), (.num 0, .num 0), 5, [], [], .null, (.num 0, .num 0), .num 0, 5⟩,
   ⟨0, (.num 0, .num 0), (.num 1, .num 1), 5, [], [1], .null, (.num 0, .num 0), .num 0, 9⟩]

/-- The graph built from `riverDocC2`. -/
def riverGraphC2 : RGraph := ((riverGraph riverDocC2).toOption).getD NXGraph.empty

/-- Claim C2 (counterexample to the claim as stated).  The retained node
with identity 0 has inlet `M = 1`; the node whose *identity* is 1 has
strahler 5, but the edge `(0, 1)` carries weight 9 — the strahler of the
node at list *position* 1 — because the code indexes `nodes[inlet]`. -/
theorem claim_C2_counterexample :
    riverGraph riverDocC2 = .ok riverGraphC2 ∧
      riverGraphC2.edgeAttr 0 1 = some ("b", 9) ∧
      (riverDocC2.get ⟨0, by decide⟩).i = 1 ∧
      (riverDocC2.get ⟨0, by decide⟩).strahler = 5 ∧
      (9 : Nat) ≠ 5 := by
  refine ⟨rfl, rfl, rfl, rfl, by decide⟩

/-- The end-to-end river scenario of the specification: node 0
(`i:0, h:5, inlets:[], strahler:2`), node 1
(`i:1, h:5, inlets:[0], strahler:4`). -/
def riverDocC2w : List RiverRec :=
  [⟨0, (.num 0, .num 0), (.num 0, .num 0), 5, [], [], .null, (.num 0, .num 0), .num 0, 2⟩,
   ⟨1, (.num 0, .num 0), (.num 1, .num 1), 5, [], [0], .null, (.num 0, .num 0), .num 0, 4⟩]

/-- The graph built from `riverDocC2w`. -/
def riverGraphC2w : RGraph := ((riverGraph riverDocC2w).toOption).getD NXGraph.empty

/-- Witness for C2: in the specification's two-node scenario the edge
`(1, 0)` carries weight 2 — node 0's strahler, the inlet's order. -/
theorem claim_C2_witness :
    riverGraphC2w.edgeAttr 1 0 = some ("b", 2) := by
  have h := claim_C2 riverDocC2w riverGraphC2w rfl (by decide)
    (mkRNode (riverDocC2w.get ⟨1, by decide⟩))
    (List.mem_map.mpr ⟨riverDocC2w.get ⟨1, by decide⟩, List.get_mem _ _ _, rfl⟩)
    0 (by decide)
  exact h.1

/-! ## The polygon graph (`poly_graph.py`) -/

/-- The builder state for `graph_poly`: the graph under construction and
the next synthetic node id.  `uuid4()` is modelled by a per-build
counter, which preserves exactly what the code relies on — freshness of
every generated id. -/
structure PolyBuilder where
  graph : NXGraph Unit
  next : Nat

/-- `pos[k]` on a JSON value: a mapping lookup that raises `KeyError`
when the key is missing and `TypeError` on a non-mapping. -/
def jGet (j : Jv) (k : String) : Except String Jv :=
  match j with
  | .obj fields =>
    match lookupKey fields k with
    | some v => .ok v
    | none => .error ("KeyError: " ++ k)
  | _ => .error "TypeError: not a mapping"

/-- The node loop of `Poly.add`: `for uuid, pos in zip(ids, points):
graph.add_node(uuid, pos=(pos['x'], pos['y']))`. -/
def addPolyNodes : List (Nat × Jv) → NXGraph Unit → Except String (NXGraph Unit)
  | [], g => .ok g
  | (idv, p) :: rest, g =>
    match jGet p "x" with
    | .error e => .error e
    | .ok xv =>
      match jGet p "y" with
      | .error e => .error e
      | .ok yv => addPolyNodes rest (g.addNode idv (xv, yv))

/-- The edge loop of `Poly.add`: `for i, a in enumerate(ids + [ids[0]]):
graph.add_edge(a, ids[(i + 1) % len(ids)])`. -/
def addPolyEdges (ids : List Nat) : List (Nat × Nat) → NXGraph Unit → NXGraph Unit
  | [], g => g
  | (i, a) :: rest, g =>
    addPolyEdges ids rest (g.addEdge a (ids.getD ((i + 1) % ids.length) 0) ())

/-- `Poly.add` of `poly_graph.py`: drop the closing duplicate, generate
one fresh id per ring point, add the nodes, then run the edge loop —
which evaluates `ids + [ids[0]]` first and raises `IndexError` when
`ids` is empty. -/
def polyAdd (ext : List Jv) (b : PolyBuilder) : Except String PolyBuilder :=
  let points := ext.dropLast
  let ids := (List.range points.length).map (fun k => k + b.next)
  match addPolyNodes (ids.zip points) b.graph with
  | .error e => .error e
  | .ok g1 =>
    match ids with
    | [] => .error "IndexError: list index out of range"
    | id0 :: _ =>
      .ok ⟨addPolyEdges ids ((ids ++ [id0]).enum) g1, b.next + ids.length⟩

/-- A ring point as the wire contract types it: a mapping with `x` and
`y` members. -/
def pointLike (p : Jv) : Bool :=
  match p with
  | .obj fields => containsKey fields "x" && containsKey fields "y"
  | _ => false

lemma jGet_ok_of_pointLike (p : Jv) (hp : pointLike p = true) :
    (∃ v, jGet p "x" = .ok v) ∧ ∃ v, jGet p "y" = .ok v := by
  cases p with
  | obj fields =>
    simp only [pointLike, Bool.and_eq_true] at hp
    obtain ⟨vx, hx⟩ := (containsKey_iff_lookup fields "x").mp hp.1
    obtain ⟨vy, hy⟩ := (containsKey_iff_lookup fields "y").mp hp.2
    exact ⟨⟨vx, by simp [jGet, hx]⟩, ⟨vy, by simp [jGet, hy]⟩⟩
  | null => exact absurd hp (by simp [pointLike])
  | bool b => exact absurd hp (by simp [pointLike])
  | num n => exact absurd hp (by simp [pointLike])
  | str s => exact absurd hp (by simp [pointLike])
  | arr elems => exact absurd hp (by simp [pointLike])

lemma addPolyNodes_spec : ∀ (l : List (Nat × Jv)) (g g' : NXGraph Unit),
    addPolyNodes l g = .ok g' →
    g'.nodes.map Prod.fst = (l.map Prod.fst).reverse ++ g.nodes.map Prod.fst ∧
      g'.edges = g.edges ∧
      ∀ e ∈ g'.nodes, e ∈ g.nodes ∨ e.2.isSome = true := by
  intro l
  induction l with
  | nil =>
    intro g g' h
    have hg : g = g' := by simpa [addPolyNodes] using h
    subst hg
    exact ⟨by simp, rfl, fun e he => Or.inl he⟩
  | cons pr rest ih =>
    intro g g' h
    obtain ⟨idv, p⟩ := pr
    rw [addPolyNodes] at h
    cases hx : jGet p "x" with
    | error e => rw [hx] at h; exact Except.noConfusion h
    | ok xv =>
      rw [hx] at h
      cases hy : jGet p "y" with
      | error e => rw [hy] at h; exact Except.noConfusion h
      | ok yv =>
        rw [hy] at h
        obtain ⟨e1, e2, e3⟩ := ih (g.addNode idv (xv, yv)) g' h
        refine ⟨?_, e2, ?_⟩
        · rw [e1]
          simp [NXGraph.addNode, NXGraph.nodeIds]
        · intro e he
          rcases e3 e he with hmem | hsome
          · rcases List.mem_cons.mp hmem with rfl | hmem2
            · exact Or.inr rfl
            · exact Or.inl hmem2
          · exact Or.inr hsome

lemma addPolyNodes_ok : ∀ (l : List (Nat × Jv)) (g : NXGraph Unit),
    (∀ p ∈ l.map Prod.snd, pointLike p = true) →
    ∃ g', addPolyNodes l g = .ok g' := by
  intro l
  induction l with
  | nil => intro g _; exact ⟨g, rfl⟩
  | cons pr rest ih =>
    intro g hwf
    obtain ⟨idv, p⟩ := pr
    obtain ⟨⟨xv, hx⟩, ⟨yv, hy⟩⟩ :=
      jGet_ok_of_pointLike p (hwf p (by simp))
    obtain ⟨g', hg'⟩ := ih (g.addNode idv (xv, yv))
      (fun q hq => hwf q (by simp [hq]))
    refine ⟨g', ?_⟩
    rw [addPolyNodes, hx, hy]
    exact hg'

lemma nodes_addEdge_mem {α : Type} (g : NXGraph α) (a b : Nat) (t : α)
    (ha : a ∈ g.nodeIds) (hb : b ∈ g.nodeIds) :
    (g.addEdge a b t).nodes = g.nodes := by
  show ((g.ensureNode a).ensureNode b).nodes = g.nodes
  rw [NXGraph.ensureNode, if_pos (by rwa [NXGraph.ensureNode, if_pos ha]),
    NXGraph.ensureNode, if_pos ha]

lemma addPolyEdges_spec (ids : List Nat) : ∀ (prs : List (Nat × Nat)) (g : NXGraph Unit),
    (∀ pr ∈ prs, pr.2 ∈ g.nodeIds ∧
      ids.getD ((pr.1 + 1) % ids.length) 0 ∈ g.nodeIds) →
    (addPolyEdges ids prs g).nodes = g.nodes ∧
      (addPolyEdges ids prs g).edges =
        (prs.map (fun pr =>
          (ekey pr.2 (ids.getD ((pr.1 + 1) % ids.length) 0), ()))).reverse ++ g.edges := by
  intro prs
  induction prs with
  | nil => intro g _; exact ⟨rfl, by simp [addPolyEdges]⟩
  | cons pr rest ih =>
    intro g hend
    obtain ⟨i, a⟩ := pr
    obtain ⟨ha, hb⟩ := hend (i, a) (List.mem_cons_self _ _)
    have hnodes : (g.addEdge a (ids.getD ((i + 1) % ids.length) 0) ()).nodes = g.nodes :=
      nodes_addEdge_mem g _ _ _ ha hb
    have hrest : ∀ pr ∈ rest, pr.2 ∈
        (g.addEdge a (ids.getD ((i + 1) % ids.length) 0) ()).nodeIds ∧
        ids.getD ((pr.1 + 1) % ids.length) 0 ∈
          (g.addEdge a (ids.getD ((i + 1) % ids.length) 0) ()).nodeIds := by
      intro pr hpr
      have := hend pr (List.mem_cons_of_mem _ hpr)
      rw [NXGraph.nodeIds, hnodes]
      exact this
    obtain ⟨n1, n2⟩ := ih (g.addEdge a (ids.getD ((i + 1) % ids.length) 0) ()) hrest
    rw [addPolyEdges]
    refine ⟨by rw [n1, hnodes], ?_⟩
    rw [n2, edges_addEdge]
    simp [List.append_assoc]

lemma zip_self {α : Type} : ∀ (l : List α), l.zip l = l.map (fun a => (a, a))
  | [] => rfl
  | x :: xs => by rw [List.zip_cons_cons, zip_self xs, List.map_cons]

lemma cycle_key (n x : Nat) (hn : 3 ≤ n) (hx : x < n) :
    ekey x ((x + 1) % n) = if x = n - 1 then (0, n - 1) else (x, x + 1) := by
  by_cases hxe : x = n - 1
  · subst hxe
    rw [if_pos rfl, show n - 1 + 1 = n from by omega, Nat.mod_self, ekey,
      if_neg (by omega)]
  · rw [if_neg hxe, Nat.mod_eq_of_lt (by omega), ekey, if_pos (by omega)]

lemma cycle_keys_nodup (n : Nat) (hn : 3 ≤ n) :
    ((List.range n).map (fun i => ekey i ((i + 1) % n))).Nodup := by
  refine List.Nodup.map_on ?_ (List.nodup_range n)
  intro x hx y hy heq
  rw [List.mem_range] at hx hy
  rw [cycle_key n x hn hx, cycle_key n y hn hy] at heq
  split_ifs at heq with h1 h2 h2 <;>
    (simp only [Prod.mk.injEq] at heq; omega)

/-- Claim C3 (confirmed).  For a polygon whose exterior has `n ≥ 3` ring
points plus the closing duplicate (all ring points being `x`/`y`
mappings), `Poly.add` into a fresh graph inserts exactly the `n`
generated nodes (the closing duplicate is dropped), each carrying a
position, and the distinct undirected edges are exactly the `n` edges of
the single cycle `{i, (i+1) mod n}` — the redundant final iteration of
the edge loop re-adds the already-present edge `{0, 1}`, which networkx
ignores — including the closing edge from the last generated node back
to the first. -/
theorem claim_C3 (ext : List Jv) (n : Nat) (hlen : ext.length = n + 1) (hn : 3 ≤ n)
    (hwf : ∀ p ∈ ext.dropLast, pointLike p = true) :
    ∃ gb : PolyBuilder, polyAdd ext ⟨NXGraph.empty, 0⟩ = .ok gb ∧
      gb.graph.nodes.map Prod.fst = (List.range n).reverse ∧
      (∀ e ∈ gb.graph.nodes, e.2.isSome = true) ∧
      (gb.graph.edges.map Prod.fst).toFinset =
        ((List.range n).map (fun i => ekey i ((i + 1) % n))).toFinset ∧
      (gb.graph.edges.map Prod.fst).toFinset.card = n ∧
      ekey (n - 1) 0 ∈ gb.graph.edges.map Prod.fst := by
  have hn0 : 0 < n := by omega
  have hplen : ext.dropLast.length = n := by
    rw [List.length_dropLast, hlen]
    omega
  have hzlen : (List.range n).length = ext.dropLast.length := by
    rw [List.length_range, hplen]
  obtain ⟨g1, hg1⟩ := addPolyNodes_ok ((List.range n).zip ext.dropLast) NXGraph.empty
    (by
      intro p hp
      rw [List.map_snd_zip _ _ (le_of_eq hzlen.symm)] at hp
      exact hwf p hp)
  obtain ⟨s1, s2, s3⟩ := addPolyNodes_spec _ _ _ hg1
  have hg1ids : g1.nodes.map Prod.fst = (List.range n).reverse := by
    rw [s1, List.map_fst_zip _ _ (le_of_eq hzlen),
      show (NXGraph.empty : NXGraph Unit).nodes.map Prod.fst = [] from rfl,
      List.append_nil]
  have hg1mem : ∀ j, j ∈ g1.nodeIds ↔ j ∈ List.range n := by
    intro j
    rw [NXGraph.nodeIds, hg1ids, List.mem_reverse]
  obtain ⟨tl, htl⟩ : ∃ tl, List.range n = 0 :: tl := by
    have h := List.range_succ_eq_map (n - 1)
    rw [show n - 1 + 1 = n from by omega] at h
    exact ⟨_, h⟩
  have hpoly : polyAdd ext ⟨NXGraph.empty, 0⟩ =
      .ok ⟨addPolyEdges (List.range n) ((List.range n ++ [0]).enum) g1,
        0 + (List.range n).length⟩ := by
    show (match addPolyNodes (((List.range ext.dropLast.length).map
        (fun k => k + 0)).zip ext.dropLast) NXGraph.empty with
      | Except.error e => (Except.error e : Except String PolyBuilder)
      | Except.ok g1 =>
        match (List.range ext.dropLast.length).map (fun k => k + 0) with
        | [] => Except.error "IndexError: list index out of range"
        | id0 :: _ =>
          Except.ok ⟨addPolyEdges ((List.range ext.dropLast.length).map (fun k => k + 0))
            ((((List.range ext.dropLast.length).map (fun k => k + 0)) ++ [id0]).enum) g1,
            0 + ((List.range ext.dropLast.length).map (fun k => k + 0)).length⟩) = _
    have hids : (List.range ext.dropLast.length).map (fun k => k + 0) = List.range n := by
      rw [hplen]
      simp
    rw [hids, hg1, htl]
  have hgetD : ∀ j, j < n → (List.range n).getD j 0 = j := by
    intro j hj
    rw [List.getD_eq_getElem?_getD, List.getElem?_range hj]
    rfl
  have hend : ∀ pr ∈ (List.range n ++ [0]).enum, pr.2 ∈ g1.nodeIds ∧
      (List.range n).getD ((pr.1 + 1) % (List.range n).length) 0 ∈ g1.nodeIds := by
    rintro ⟨i, a⟩ hpr
    rw [List.enum_eq_zip_range] at hpr
    have hmem := (List.of_mem_zip hpr).2
    constructor
    · rw [hg1mem]
      rcases List.mem_append.mp hmem with h | h
      · exact h
      · rw [List.mem_singleton.mp h]
        exact List.mem_range.mpr hn0
    · rw [hg1mem, List.length_range, hgetD _ (Nat.mod_lt _ hn0)]
      exact List.mem_range.mpr (Nat.mod_lt _ hn0)
  obtain ⟨t1, t2⟩ := addPolyEdges_spec (List.range n) ((List.range n ++ [0]).enum) g1 hend
  have henum : (List.range n ++ [0]).enum =
      (List.range n).map (fun i => (i, i)) ++ [(n, 0)] := by
    have hlen2 : (List.range n ++ [0]).length = n + 1 := by simp
    rw [List.enum_eq_zip_range, hlen2, List.range_succ, List.zip_append (by simp),
      zip_self]
    rfl
  have hmod1 : (n + 1) % n = 1 := by
    rw [Nat.add_comm, Nat.add_mod_right]
    exact Nat.mod_eq_of_lt (by omega)
  have hkeys : ((List.range n ++ [0]).enum.map (fun pr : Nat × Nat =>
      (ekey pr.2 ((List.range n).getD ((pr.1 + 1) % (List.range n).length) 0), ()))) =
      ((List.range n).map (fun i => (ekey i ((i + 1) % n), ()))) ++ [((0, 1), ())] := by
    rw [henum, List.map_append, List.map_map]
    congr 1
    · refine List.map_congr_left ?_
      intro i hi
      rw [List.mem_range] at hi
      show (ekey i ((List.range n).getD ((i + 1) % (List.range n).length) 0), ()) = _
      rw [List.length_range, hgetD _ (Nat.mod_lt _ hn0)]
    · show [(ekey (0 : Nat) ((List.range n).getD ((n + 1) % (List.range n).length) 0), ())] =
          [((0, 1), ())]
      rw [List.length_range, hmod1, hgetD 1 (by omega)]
      rfl
  have hedges : (addPolyEdges (List.range n) ((List.range n ++ [0]).enum) g1).edges =
      (((List.range n).map (fun i => (ekey i ((i + 1) % n), ()))) ++
        [((0, 1), ())]).reverse := by
    rw [t2, s2, show (NXGraph.empty : NXGraph Unit).edges = [] from rfl,
      List.append_nil, hkeys]
  have hcomp : (Prod.fst ∘ fun i : Nat => (ekey i ((i + 1) % n), ())) =
      fun i => ekey i ((i + 1) % n) := rfl
  have hmapfst : (addPolyEdges (List.range n) ((List.range n ++ [0]).enum) g1).edges.map
        Prod.fst =
      (((List.range n).map (fun i => ekey i ((i + 1) % n))) ++ [(0, 1)]).reverse := by
    rw [hedges, List.map_reverse, List.map_append, List.map_map, hcomp]
    rfl
  have h01 : ((0 : Nat), (1 : Nat)) ∈
      (List.range n).map (fun i => ekey i ((i + 1) % n)) := by
    refine List.mem_map.mpr ⟨0, List.mem_range.mpr hn0, ?_⟩
    rw [Nat.zero_add, Nat.mod_eq_of_lt (by omega)]
    rfl
  have hset : ((addPolyEdges (List.range n) ((List.range n ++ [0]).enum) g1).edges.map
        Prod.fst).toFinset =
      ((List.range n).map (fun i => ekey i ((i + 1) % n))).toFinset := by
    rw [hmapfst, List.toFinset_reverse, List.toFinset_append]
    rw [show ([((0 : Nat), (1 : Nat))] : List (Nat × Nat)).toFinset = {(0, 1)} from rfl]
    exact Finset.union_eq_left.mpr
      (Finset.singleton_subset_iff.mpr (List.mem_toFinset.mpr h01))
  refine ⟨_, hpoly, ?_, ?_, hset, ?_, ?_⟩
  · rw [t1, hg1ids]
  · intro e he
    rw [t1] at he
    rcases s3 e he with hmem | hsome
    · exact absurd hmem (List.not_mem_nil e)
    · exact hsome
  · rw [hset, List.toFinset_card_of_nodup (cycle_keys_nodup n hn), List.length_map,
      List.length_range]
  · rw [hmapfst, List.mem_reverse]
    refine List.mem_append.mpr (Or.inl (List.mem_map.mpr ⟨n - 1, List.mem_range.mpr (by omega), ?_⟩))
    rw [show n - 1 + 1 = n from by omega, Nat.mod_self]

/-- The end-to-end triangle scenario of the specification:
`{"exterior": [{0,0}, {1,0}, {1,1}, {0,0}]}`'s ring. -/
def polyDocC3w : List Jv :=
  [.obj [("x", .num 0), ("y", .num 0)], .obj [("x", .num 1), ("y", .num 0)],
   .obj [("x", .num 1), ("y", .num 1)], .obj [("x", .num 0), ("y", .num 0)]]

/-- Witness for C3: the triangle ring yields 3 nodes and the 3 cycle
edges, closing edge included. -/
theorem claim_C3_witness :
    ∃ gb : PolyBuilder, polyAdd polyDocC3w ⟨NXGraph.empty, 0⟩ = .ok gb ∧
      gb.graph.nodes.map Prod.fst = (List.range 3).reverse ∧
      (∀ e ∈ gb.graph.nodes, e.2.isSome = true) ∧
      (gb.graph.edges.map Prod.fst).toFinset =
        ((List.range 3).map (fun i => ekey i ((i + 1) % 3))).toFinset ∧
      (gb.graph.edges.map Prod.fst).toFinset.card = 3 ∧
      ekey (3 - 1) 0 ∈ gb.graph.edges.map Prod.fst :=
  claim_C3 polyDocC3w 3 rfl (by omega) (by decide)

/-- Claim C10 (confirmed).  `Poly.add` completes on every polygon whose
exterior holds at least 2 (well-formed) points, and on an empty or
one-point exterior it raises an unhandled `IndexError` at `ids[0]` while
forming the closing-edge iteration list `ids + [ids[0]]`. -/
theorem claim_C10 (ext : List Jv) (b : PolyBuilder) :
    (2 ≤ ext.length → (∀ p ∈ ext.dropLast, pointLike p = true) →
      ∃ b', polyAdd ext b = .ok b') ∧
    (ext.length ≤ 1 → polyAdd ext b = .error "IndexError: list index out of range") := by
  constructor
  · intro h2 hwf
    have hlenids : ((List.range ext.dropLast.length).map (fun k => k + b.next)).length =
        ext.dropLast.length := by
      rw [List.length_map, List.length_range]
    obtain ⟨g1, hg1⟩ := addPolyNodes_ok
      (((List.range ext.dropLast.length).map (fun k => k + b.next)).zip ext.dropLast)
      b.graph
      (by
        intro p hp
        rw [List.map_snd_zip _ _ (le_of_eq hlenids.symm)] at hp
        exact hwf p hp)
    have hne : ((List.range ext.dropLast.length).map (fun k => k + b.next)) ≠ [] := by
      intro hnil
      have hz := hlenids
      rw [hnil] at hz
      rw [List.length_dropLast] at hz
      simp at hz
      omega
    obtain ⟨id0, tl, hcons⟩ := List.exists_cons_of_ne_nil hne
    refine ⟨⟨addPolyEdges ((List.range ext.dropLast.length).map (fun k => k + b.next))
      ((((List.range ext.dropLast.length).map (fun k => k + b.next)) ++ [id0]).enum) g1,
      b.next + ((List.range ext.dropLast.length).map (fun k => k + b.next)).length⟩, ?_⟩
    show (match addPolyNodes (((List.range ext.dropLast.length).map
        (fun k => k + b.next)).zip ext.dropLast) b.graph with
      | Except.error e => (Except.error e : Except String PolyBuilder)
      | Except.ok g1 =>
        match (List.range ext.dropLast.length).map (fun k => k + b.next) with
        | [] => Except.error "IndexError: list index out of range"
        | id0 :: _ =>
          Except.ok ⟨addPolyEdges ((List.range ext.dropLast.length).map (fun k => k + b.next))
            ((((List.range ext.dropLast.length).map (fun k => k + b.next)) ++ [id0]).enum) g1,
            b.next + ((List.range ext.dropLast.length).map (fun k => k + b.next)).length⟩) = _
    rw [hg1, hcons]
  · intro h1
    rcases ext with _ | ⟨p, rest⟩
    · rfl
    · rcases rest with _ | ⟨q, rest2⟩
      · rfl
      · simp at h1

/-- A two-point exterior (degenerate but long enough for `Poly.add`). -/
def polyDocC10w : List Jv :=
  [.obj [("x", .num 0), ("y", .num 0)], .obj [("x", .num 1), ("y", .num 1)]]

/-- Witness for C10: `Poly.add` completes on a two-point exterior and
raises `IndexError` on the empty exterior. -/
theorem claim_C10_witness :
    (∃ b', polyAdd polyDocC10w ⟨NXGraph.empty, 0⟩ = .ok b') ∧
      polyAdd [] ⟨NXGraph.empty, 0⟩ = .error "IndexError: list index out of range" :=
  ⟨(claim_C10 polyDocC10w ⟨NXGraph.empty, 0⟩).1 (by decide) (by decide),
   (claim_C10 [] ⟨NXGraph.empty, 0⟩).2 (by decide)⟩

lemma okNodes_addRNodes : ∀ (l : List RNode) (g : RGraph),
    okNodes g → okNodes (addRNodes l g) := by
  intro l
  induction l with
  | nil => intro g h; exact h
  | cons n rest ih =>
    intro g h
    rw [addRNodes]
    by_cases hc : n.h < 0 ∧ n.inlets = []
    · rw [if_pos hc]
      exact ih g h
    · rw [if_neg hc]
      exact ih _ (okNodes_addNode h _ _)

lemma okNodes_addInletEdges (ns : List RNode) (src : Nat) :
    ∀ (ms : List Nat) (g g' : RGraph), addInletEdges ns src ms g = .ok g' →
    okNodes g → okNodes g' := by
  intro ms
  induction ms with
  | nil =>
    intro g g' h hok
    have hg : g = g' := by simpa [addInletEdges] using h
    exact hg ▸ hok
  | cons m rest ih =>
    intro g g' h hok
    rw [addInletEdges] at h
    by_cases hm : m = USIZE_MAX
    · rw [if_neg (not_not_intro hm)] at h
      exact ih g g' h hok
    · rw [if_pos hm] at h
      cases hget : ns[m]? with
      | none => rw [hget] at h; exact Except.noConfusion h
      | some nm =>
        rw [hget] at h
        exact ih _ g' h (okNodes_addEdge hok _ _ _)

lemma okNodes_addRiverEdges (ns : List RNode) :
    ∀ (l : List RNode) (g g' : RGraph), addRiverEdges ns l g = .ok g' →
    okNodes g → okNodes g' := by
  intro l
  induction l with
  | nil =>
    intro g g' h hok
    have hg : g = g' := by simpa [addRiverEdges] using h
    exact hg ▸ hok
  | cons n rest ih =>
    intro g g' h hok
    rw [addRiverEdges] at h
    cases hstep : addInletEdges ns n.i n.inlets g with
    | error e => rw [hstep] at h; exact Except.noConfusion h
    | ok g2 =>
      rw [hstep] at h
      exact ih g2 g' h (okNodes_addInletEdges ns n.i n.inlets g g2 hstep hok)

lemma okNodes_addTownNodes : ∀ (l : List (TownNodeRec × Jv)) (g : NXGraph Unit),
    okNodes g → okNodes (addTownNodes l g) := by
  intro l
  induction l with
  | nil => intro g h; exact h
  | cons pr rest ih =>
    intro g h
    obtain ⟨n, aux⟩ := pr
    exact ih _ (okNodes_addNode h _ _)

lemma okNodes_addTownEdges : ∀ (l : List (TownEdgeRec × Jv)) (g : NXGraph Unit),
    okNodes g → okNodes (addTownEdges l g) := by
  intro l
  induction l with
  | nil => intro g h; exact h
  | cons pr rest ih =>
    intro g h
    obtain ⟨e, aux⟩ := pr
    exact ih _ (okNodes_addEdge h _ _ _)

lemma getD_mem (l : List Nat) (j d : Nat) (h : j < l.length) : l.getD j d ∈ l := by
  rw [List.getD_eq_getElem?_getD, List.getElem?_eq_getElem h]
  exact List.getElem_mem h

/-- Claim C4 (amended).  Every node inserted by a node-adding operation
carries exactly one position attribute, and in the polygon builder every
node of the output has one; but in the river and town builders edge
insertion introduces missing endpoints as nodes *without* a position, so
a node of the output graph is only guaranteed to carry a position or to
be an endpoint of some recorded edge. -/
theorem claim_C4 :
    (∀ (ext : List Jv) (b b' : PolyBuilder), polyAdd ext b = .ok b' →
      (∀ e ∈ b.graph.nodes, e.2.isSome = true) →
      ∀ e ∈ b'.graph.nodes, e.2.isSome = true) ∧
      (∀ (recs : List RiverRec) (g' : RGraph), riverGraph recs = .ok g' → okNodes g') ∧
      (∀ (tns : List (TownNodeRec × Jv)) (tes : List (TownEdgeRec × Jv)),
        okNodes (townGraph tns tes)) := by
  refine ⟨?_, ?_, ?_⟩
  · intro ext b b' h hsome
    have h' : (match addPolyNodes (((List.range ext.dropLast.length).map
        (fun k => k + b.next)).zip ext.dropLast) b.graph with
      | Except.error e => (Except.error e : Except String PolyBuilder)
      | Except.ok g1 =>
        match (List.range ext.dropLast.length).map (fun k => k + b.next) with
        | [] => Except.error "IndexError: list index out of range"
        | id0 :: _ =>
          Except.ok ⟨addPolyEdges ((List.range ext.dropLast.length).map (fun k => k + b.next))
            ((((List.range ext.dropLast.length).map (fun k => k + b.next)) ++ [id0]).enum) g1,
            b.next + ((List.range ext.dropLast.length).map (fun k => k + b.next)).length⟩) =
        .ok b' := h
    cases hg1 : addPolyNodes (((List.range ext.dropLast.length).map
        (fun k => k + b.next)).zip ext.dropLast) b.graph with
    | error e => rw [hg1] at h'; exact Except.noConfusion h'
    | ok g1 =>
      rw [hg1] at h'
      cases hids : (List.range ext.dropLast.length).map (fun k => k + b.next) with
      | nil => rw [hids] at h'; exact Except.noConfusion h'
      | cons id0 tl =>
        rw [hids] at h'
        have hb2 : Except.ok (⟨addPolyEdges (id0 :: tl) (((id0 :: tl) ++ [id0]).enum) g1,
            b.next + (id0 :: tl).length⟩ : PolyBuilder) = Except.ok b' := h'
        have hb3 := Except.ok.inj hb2
        obtain ⟨s1, s2, s3⟩ := addPolyNodes_spec _ _ _ hg1
        have hlenzip : ((List.range ext.dropLast.length).map
            (fun k => k + b.next)).length ≤ ext.dropLast.length := by
          rw [List.length_map, List.length_range]
        have hidmem : ∀ x ∈ id0 :: tl, x ∈ g1.nodeIds := by
          intro x hx
          show x ∈ g1.nodes.map Prod.fst
          rw [s1, List.map_fst_zip _ _ hlenzip, hids]
          exact List.mem_append.mpr (Or.inl (List.mem_reverse.mpr hx))
        have hend : ∀ pr ∈ ((id0 :: tl) ++ [id0]).enum, pr.2 ∈ g1.nodeIds ∧
            (id0 :: tl).getD ((pr.1 + 1) % (id0 :: tl).length) 0 ∈ g1.nodeIds := by
          rintro ⟨i, a⟩ hpr
          rw [List.enum_eq_zip_range] at hpr
          have hmem := (List.of_mem_zip hpr).2
          constructor
          · refine hidmem a ?_
            rcases List.mem_append.mp hmem with hh | hh
            · exact hh
            · rw [List.mem_singleton.mp hh]
              exact List.mem_cons_self _ _
          · exact hidmem _ (getD_mem _ _ _ (Nat.mod_lt _ (by simp)))
        obtain ⟨t1, -⟩ := addPolyEdges_spec (id0 :: tl) (((id0 :: tl) ++ [id0]).enum) g1 hend
        intro e he
        rw [← hb3] at he
        have he1 : e ∈ g1.nodes := t1 ▸ he
        rcases s3 e he1 with hmem | hsome2
        · exact hsome e hmem
        · exact hsome2
  · intro recs g' hok
    simp only [riverGraph] at hok
    exact okNodes_addRiverEdges _ _ _ _ hok (okNodes_addRNodes _ _ okNodes_empty)
  · intro tns tes
    exact okNodes_addTownEdges _ _ (okNodes_addTownNodes _ _ okNodes_empty)

/-- A town document with a single node `0` and an edge `(0, 7)` whose
endpoint `7` names no node. -/
def townNodesC4 : List (TownNodeRec × Jv) := [(⟨0, (.num 0, .num 0)⟩, .null)]

/-- The edge collection of the C4 counterexample document. -/
def townEdgesC4 : List (TownEdgeRec × Jv) := [(⟨0, 7⟩, .null)]

/-- Claim C4 (counterexample to the claim as stated).  The town build puts
node `7` into the output graph with *no* position attribute: edge
insertion introduced a node without a position. -/
theorem claim_C4_counterexample :
    7 ∈ (townGraph townNodesC4 townEdgesC4).nodeIds ∧
      (townGraph townNodesC4 townEdgesC4).posOf 7 = some none := by
  exact ⟨by decide, rfl⟩

/-- A well-formed one-node river document. -/
def riverDocC4w : List RiverRec :=
  [⟨0, (.num 0, .num 0), (.num 0, .num 0), 5, [], [], .null, (.num 0, .num 0), .num 0, 1⟩]

/-- The graph built from `riverDocC4w`. -/
def riverGraphC4w : RGraph := ((riverGraph riverDocC4w).toOption).getD NXGraph.empty

/-- A triangle ring for the polygon part of the C4 witness. -/
def polyDocC4w : List Jv :=
  [.obj [("x", .num 0), ("y", .num 0)], .obj [("x", .num 2), ("y", .num 0)],
   .obj [("x", .num 2), ("y", .num 2)], .obj [("x", .num 0), ("y", .num 0)]]

/-- The builder produced by `Poly.add` on `polyDocC4w`. -/
def polyBuilderC4w : PolyBuilder :=
  ((polyAdd polyDocC4w ⟨NXGraph.empty, 0⟩).toOption).getD ⟨NXGraph.empty, 0⟩

/-- Witness for C4: on a concrete polygon every node of the result has a
position, and the concrete river build satisfies the
position-or-edge-endpoint invariant. -/
theorem claim_C4_witness :
    (∀ e ∈ polyBuilderC4w.graph.nodes, e.2.isSome = true) ∧ okNodes riverGraphC4w := by
  constructor
  · exact claim_C4.1 polyDocC4w ⟨NXGraph.empty, 0⟩ polyBuilderC4w rfl
      (fun e he => absurd he (List.not_mem_nil e))
  · exact claim_C4.2.1 riverDocC4w riverGraphC4w rfl
